import Mathlib

/-!
# Verification of the isupipe core logic

A shallow embedding of the ranking, moderation and caching logic of the
isupipe web application (Go), together with proofs about it.

Conventions:
* Go `int64` values are modelled as unbounded `Int` (no arithmetic in the
  modelled code comes close to overflow for realizable data sizes).
* Database tables are modelled as lists of row records; `AUTO_INCREMENT`
  ids are modelled by explicit next-id counters threaded through the state.
* Go byte strings are modelled as `String` compared character-wise
  (all the data relevant to the claims is ASCII, where the two agree).
-/

/-- Row of the ranking slice built by `getLivestreamStatisticsHandler`
(Go struct `LivestreamRankingEntry`). -/
structure LivestreamRankingEntry where
  livestreamID : Int
  score : Int
deriving DecidableEq, Repr

/-- Row of the ranking slice built by `getUserStatisticsHandler`
(Go struct `UserRankingEntry`). -/
structure UserRankingEntry where
  username : String
  score : Int
deriving DecidableEq, Repr

/-- Go comparator `func (r LivestreamRanking) Less(i, j int) bool`:
equal scores compare by ascending livestream id, otherwise ascending score. -/
def LivestreamRanking.Less (a b : LivestreamRankingEntry) : Bool :=
  if a.score = b.score then decide (a.livestreamID < b.livestreamID)
  else decide (a.score < b.score)

/-- Go comparator `func (r UserRanking) Less(i, j int) bool`:
equal scores compare by ascending username (lexicographic), otherwise ascending score. -/
def UserRanking.Less (a b : UserRankingEntry) : Bool :=
  if a.score = b.score then decide (a.username < b.username)
  else decide (a.score < b.score)

section RankingModel

variable {α K : Type} [LinearOrder K]

/-- The strict (score, tie-break key) lexicographic order implemented by the two
Go `Less` comparators, abstracted over the score and key projections. -/
def scoreLt (sc : α → Int) (ky : α → K) (a b : α) : Prop :=
  sc a < sc b ∨ (sc a = sc b ∧ ky a < ky b)

/-- The matching non-strict total order (`scoreLe sc ky a b ↔ ¬ scoreLt sc ky b a`):
sorting with `sort.Sort` and the Go comparator yields a list sorted by this order. -/
def scoreLe (sc : α → Int) (ky : α → K) (a b : α) : Prop :=
  sc a < sc b ∨ (sc a = sc b ∧ ky a ≤ ky b)

instance (sc : α → Int) (ky : α → K) : DecidableRel (scoreLt sc ky) := fun a b =>
  inferInstanceAs (Decidable (sc a < sc b ∨ (sc a = sc b ∧ ky a < ky b)))

instance (sc : α → Int) (ky : α → K) : DecidableRel (scoreLe sc ky) := fun a b =>
  inferInstanceAs (Decidable (sc a < sc b ∨ (sc a = sc b ∧ ky a ≤ ky b)))

instance scoreLe_isTotal (sc : α → Int) (ky : α → K) : IsTotal α (scoreLe sc ky) := by
  constructor
  intro a b
  rcases lt_trichotomy (sc a) (sc b) with h | h | h
  · exact Or.inl (Or.inl h)
  · rcases le_total (ky a) (ky b) with hk | hk
    · exact Or.inl (Or.inr ⟨h, hk⟩)
    · exact Or.inr (Or.inr ⟨h.symm, hk⟩)
  · exact Or.inr (Or.inl h)

instance scoreLe_isTrans (sc : α → Int) (ky : α → K) : IsTrans α (scoreLe sc ky) := by
  constructor
  intro a b c h1 h2
  rcases h1 with h1 | ⟨h1e, h1k⟩ <;> rcases h2 with h2 | ⟨h2e, h2k⟩
  · exact Or.inl (h1.trans h2)
  · exact Or.inl (h2e ▸ h1)
  · exact Or.inl (h1e ▸ h2)
  · exact Or.inr ⟨h1e.trans h2e, h1k.trans h2k⟩

/-- `sort.Sort(ranking)` with the Go comparator: since entries carrying equal
(score, key) pairs are identical records, any correct sort produces the same
list; we model it with insertion sort into the non-strict order `scoreLe`. -/
def sortRanking (sc : α → Int) (ky : α → K) (l : List α) : List α :=
  l.insertionSort (scoreLe sc ky)

/-- The rank loop shared by both statistics handlers, applied to the sorted
slice read from its top (highest) index downwards:

    rank := 1
    for i := len(ranking) - 1; i >= 0; i-- {
      if ranking[i] is the target { break }
      rank++
    }

`rankWalk` consumes the reversed (descending) list; it returns the final
value of `rank`, which is `length + 1` when the target key never occurs. -/
def rankWalk (ky : α → K) (target : K) : List α → Nat
  | [] => 1
  | e :: rest => if ky e = target then 1 else 1 + rankWalk ky target rest

/-- `ComputeRank`: sort ascending with the Go comparator, then run the rank
loop from the highest-scoring end. -/
def computeRank (sc : α → Int) (ky : α → K) (l : List α) (target : K) : Nat :=
  rankWalk ky target (sortRanking sc ky l).reverse

end RankingModel

/-- Rank computation of `getLivestreamStatisticsHandler` over its ranking slice. -/
def livestreamComputeRank (l : List LivestreamRankingEntry) (target : Int) : Nat :=
  computeRank LivestreamRankingEntry.score LivestreamRankingEntry.livestreamID l target

/-- Rank computation of `getUserStatisticsHandler` over its ranking slice. -/
def userComputeRank (l : List UserRankingEntry) (target : String) : Nat :=
  computeRank UserRankingEntry.score UserRankingEntry.username l target

/-- Go struct `UserModel` (`users` table row). -/
structure UserModel where
  id : Int
  name : String
  displayName : String
  description : String
  hashedPassword : String
deriving DecidableEq, Repr

/-- Modelled from the spec: the source file defining the Go struct
`LivestreamModel` is not part of the excerpt. Per §3 a Livestream carries
"id, owner user id, title/metadata", and the handlers in scope read exactly
the id and owner columns (`SELECT * FROM livestreams WHERE id = ? AND user_id = ?`). -/
structure LivestreamModel where
  id : Int
  userID : Int
  title : String
deriving DecidableEq, Repr

/-- Go struct `ReactionModel` (`reactions` table row). -/
structure ReactionModel where
  id : Int
  emojiName : String
  userID : Int
  livestreamID : Int
  createdAt : Int
deriving DecidableEq, Repr

/-- Go struct `LivecommentModel` (`livecomments` table row, including the
`is_deleted` soft-delete column added by the schema migration). -/
structure LivecommentModel where
  id : Int
  userID : Int
  livestreamID : Int
  comment : String
  tip : Int
  createdAt : Int
  isDeleted : Bool
deriving DecidableEq, Repr

/-- Go struct `NGWord` (`ng_words` table row). -/
structure NGWord where
  id : Int
  userID : Int
  livestreamID : Int
  word : String
  createdAt : Int
deriving DecidableEq, Repr

/-- The relational storage visible to the modelled handlers: one list per
table, plus the AUTO_INCREMENT counters of the two tables they insert into. -/
structure DBState where
  users : List UserModel
  livestreams : List LivestreamModel
  reactions : List ReactionModel
  livecomments : List LivecommentModel
  ngWords : List NGWord
  nextNgWordID : Int
  nextLivecommentID : Int
deriving DecidableEq, Repr

/-- Per-livestream reaction count: the group for one livestream id of
`SELECT livestream_id, COUNT(*) FROM reactions WHERE livestream_id IN (?)
GROUP BY livestream_id` (a missing group reads as 0, as the Go map default). -/
def reactionsOfLivestream (db : DBState) (livestreamID : Int) : Int :=
  ((db.reactions.filter (fun r => decide (r.livestreamID = livestreamID))).length : Int)

/-- Sum of tips of the visible comments of one livestream:
`SELECT livestream_id, IFNULL(SUM(tip), 0) FROM livecomments WHERE
livestream_id IN (?) and is_deleted = 0 GROUP BY livestream_id`. -/
def visibleTips (livestreamID : Int) (cs : List LivecommentModel) : Int :=
  ((cs.filter (fun c => decide (c.livestreamID = livestreamID ∧ c.isDeleted = false))).map
    (fun c => c.tip)).sum

/-- Per-livestream tip total read off for one livestream id. -/
def tipsOfLivestream (db : DBState) (livestreamID : Int) : Int :=
  visibleTips livestreamID db.livecomments

/-- The score computed by `getLivestreamStatisticsHandler`'s ranking loop:
`score := reactions + totalTips`. -/
def livestreamScore (db : DBState) (livestreamID : Int) : Int :=
  reactionsOfLivestream db livestreamID + tipsOfLivestream db livestreamID

/-- The ranking slice built by `getLivestreamStatisticsHandler` (one entry per
livestream row, scored from the two grouped queries). -/
def livestreamRankingOf (db : DBState) : List LivestreamRankingEntry :=
  db.livestreams.map (fun l => ⟨l.id, livestreamScore db l.id⟩)

/-- Per-owner reaction count (`... INNER JOIN livestreams l ON r.livestream_id
= l.id WHERE l.user_id IN (?) GROUP BY l.user_id`): each joined pair counts
once, so the group total is the sum over the owner's livestream rows. -/
def reactionsOfUser (db : DBState) (userID : Int) : Int :=
  ((db.livestreams.filter (fun l => decide (l.userID = userID))).map
    (fun l => reactionsOfLivestream db l.id)).sum

/-- Per-owner tip total (`... INNER JOIN livestreams l ON lc.livestream_id =
l.id WHERE l.user_id IN (?) AND lc.is_deleted = 0 GROUP BY l.user_id`). -/
def tipsOfUser (db : DBState) (userID : Int) : Int :=
  ((db.livestreams.filter (fun l => decide (l.userID = userID))).map
    (fun l => tipsOfLivestream db l.id)).sum

/-- The score computed by `getUserStatisticsHandler`'s ranking loop. -/
def userScore (db : DBState) (userID : Int) : Int :=
  reactionsOfUser db userID + tipsOfUser db userID

/-- The ranking slice built by `getUserStatisticsHandler`. -/
def userRankingOf (db : DBState) : List UserRankingEntry :=
  db.users.map (fun u => ⟨u.name, userScore db u.id⟩)

/-- `UPDATE livecomments SET is_deleted = 1 WHERE id IN (?)`. -/
def hideComments (ids : List Int) (cs : List LivecommentModel) : List LivecommentModel :=
  cs.map (fun c => if c.id ∈ ids then { c with isDeleted := true } else c)

/-- The moderation batch hide applied to the whole storage state. -/
def applyHide (db : DBState) (ids : List Int) : DBState :=
  { db with livecomments := hideComments ids db.livecomments }

/-- Does `w` occur at the head of `s`? (character-wise prefix test used to
model `strings.Contains`). -/
def startsW : List Char → List Char → Bool
  | _, [] => true
  | [], _ :: _ => false
  | c :: s, d :: w => decide (c = d) && startsW s w

/-- Does `w` occur inside `s` (at the head or in the tail)? -/
def hasSub (w : List Char) : List Char → Bool
  | [] => w.isEmpty
  | c :: rest => startsW (c :: rest) w || hasSub w rest

/-- Go `strings.Contains(s, w)`: case-sensitive substring containment. -/
def strContains (s w : String) : Bool :=
  hasSub w.data s.data

/-- Observable outcome of one `moderateHandler` request together with the
committed storage state; error outcomes carry the pre-call state, because the
deferred rollback discards every write of an uncommitted transaction. -/
inductive ModerateOutcome
  /-- 201 with `word_id`; the transaction committed. -/
  | ok (wordID : Int) (db : DBState)
  /-- 400 "A streamer can't moderate livestreams that other streamers own" —
  the single branch taken both on owner mismatch and on a missing livestream. -/
  | permissionErr (db : DBState)
  /-- 500 storage error; the transaction rolled back. -/
  | internalErr (db : DBState)
deriving DecidableEq, Repr

/-- Failure schedule for the storage steps `moderateHandler` performs after
persisting the new rule; the atomicity claim quantifies over these. -/
structure ModerateFailures where
  failSelectNgWords : Bool
  failSelectLivecomments : Bool
  failUpdate : Bool
deriving DecidableEq, Repr

/-- The failure-free schedule (the normal run). -/
def noFailures : ModerateFailures := ⟨false, false, false⟩

/-- The comment ids `moderateHandler` collects for the batch hide: visible
comments of the livestream whose text contains some rule of the post-insert
rule set (every rule of the livestream, the new one included). -/
def sweepTargets (db : DBState) (userID livestreamID : Int) (word : String)
    (now : Int) : List Int :=
  let ngwords := (db.ngWords
    ++ [(⟨db.nextNgWordID, userID, livestreamID, word, now⟩ : NGWord)]).filter
    (fun w => decide (w.livestreamID = livestreamID))
  ((db.livecomments.filter
    (fun c => decide (c.livestreamID = livestreamID ∧ c.isDeleted = false))).filter
    (fun c => ngwords.any (fun w => strContains c.comment w.word))).map (fun c => c.id)

/-- `moderateHandler`: inside one transaction (begun with a deferred rollback,
committed only at the end): verify that the requester owns the livestream
(`SELECT * FROM livestreams WHERE id = ? AND user_id = ?`), insert the new
`ng_words` row, re-fetch the complete rule set of the livestream, fetch its
visible comments, mark each comment whose text contains any rule's word, and
batch-hide the marked ids when there are any; return the new rule's id. -/
def moderateHandler (db : DBState) (userID livestreamID : Int) (word : String)
    (now : Int) (f : ModerateFailures) : ModerateOutcome :=
  let ownedLivestreams := db.livestreams.filter
    (fun l => decide (l.id = livestreamID) && decide (l.userID = userID))
  if ownedLivestreams.length = 0 then .permissionErr db
  else
    let wordID := db.nextNgWordID
    let db1 := { db with
      ngWords := db.ngWords ++ [⟨wordID, userID, livestreamID, word, now⟩],
      nextNgWordID := wordID + 1 }
    if f.failSelectNgWords then .internalErr db
    else if f.failSelectLivecomments then .internalErr db
    else
      let ngLivecommentIDs := sweepTargets db userID livestreamID word now
      if ngLivecommentIDs.length = 0 then .ok wordID db1
      else if f.failUpdate then .internalErr db
      else .ok wordID (applyHide db1 ngLivecommentIDs)

/-- Body of `POST /livestream/{id}/livecomment` (Go `PostLivecommentRequest`). -/
structure PostLivecommentRequest where
  comment : String
  tip : Int
deriving DecidableEq, Repr

/-- Observable outcome of one `postLivecommentHandler` request together with
the storage state after it. -/
inductive PostLivecommentOutcome
  /-- 201 with the created livecomment. -/
  | created (lc : LivecommentModel) (db : DBState)
  /-- 404 "livestream not found"; nothing written. -/
  | livestreamNotFound (db : DBState)
  /-- 400 spam rejection (the Japanese message in the source); nothing written. -/
  | spamRejected (db : DBState)
deriving DecidableEq, Repr

/-- `postLivecommentHandler`: look up the livestream, load the livestream's
`ng_words`, reject when the proposed comment contains any rule's word
(`strings.Contains`), otherwise insert the new row verbatim and return it. -/
def postLivecommentHandler (db : DBState) (userID livestreamID : Int)
    (req : PostLivecommentRequest) (now : Int) : PostLivecommentOutcome :=
  match db.livestreams.find? (fun l => decide (l.id = livestreamID)) with
  | none => .livestreamNotFound db
  | some livestreamModel =>
    let ngwords := db.ngWords.filter
      (fun w => decide (w.livestreamID = livestreamModel.id))
    if ngwords.any (fun w => strContains req.comment w.word) then .spamRejected db
    else
      let lc : LivecommentModel := ⟨db.nextLivecommentID, userID, livestreamID,
        req.comment, req.tip, now, false⟩
      .created lc
        { db with
          livecomments := db.livecomments ++ [lc],
          nextLivecommentID := db.nextLivecommentID + 1 }

/-- Go struct `IconHash`: a cached digest with its expiry instant (the time
line is modelled by integers). -/
structure IconHash where
  iconHash : String
  expireTime : Int
deriving DecidableEq, Repr

/-- Go struct `IconHashCache`: a username-keyed map plus the per-cache TTL
configuration (100 seconds in the source). The reader/writer mutex only
serializes access and has no sequential content. -/
structure IconHashCache where
  m : String → Option IconHash
  ttl : Int

/-- `IconHashCache.Get`: a missing key reads as "" (the Go zero value); an
entry whose `ExpireTime` lies before `now` is deleted and reads as "";
otherwise the stored digest is returned. The post-read cache is returned
alongside to capture the lazy eviction. -/
def IconHashCache.get (c : IconHashCache) (now : Int) (username : String) :
    String × IconHashCache :=
  match c.m username with
  | none => ("", c)
  | some ih =>
    if ih.expireTime < now then
      ("", { c with m := fun k => if k = username then none else c.m k })
    else (ih.iconHash, c)

/-- `IconHashCache.Set`: insert or replace the entry, with expiry
`time.Now().Add(c.ttl)`. -/
def IconHashCache.set (c : IconHashCache) (now : Int) (username iconHash : String) :
    IconHashCache :=
  { c with m := fun k => if k = username then some ⟨iconHash, now + c.ttl⟩ else c.m k }

/-- The `If-None-Match` preprocessing of `getIconHandler`: headers longer than
two characters lose their first and last character (the surrounding quotes of
a well-formed ETag). -/
def stripEtag (s : String) : String :=
  if 2 < s.length then (s.drop 1).dropRight 1 else s

/-- The conditional-GET decision of `getIconHandler`: read the cached digest
for the username (with lazy eviction), strip the header, and answer
304 Not Modified exactly when the stripped header is nonempty and equals the
cached digest. Returns the decision and the post-read cache. -/
def iconNotModified (cache : IconHashCache) (now : Int) (username header : String) :
    Bool × IconHashCache :=
  let r := cache.get now username
  let inm := stripEtag header
  (decide (inm ≠ "") && (r.1 == inm), r.2)

/-- Example state for the C2 scenario: livestream 1 (owner user 10) with 3
reactions and two visible comments tipping 100 and 50 (total 150). -/
def exScoreDB : DBState where
  users := [⟨10, "alice", "Alice", "", "pw"⟩]
  livestreams := [⟨1, 10, "stream"⟩]
  reactions := [⟨1, "smile", 20, 1, 0⟩, ⟨2, "fire", 21, 1, 0⟩, ⟨3, "heart", 22, 1, 0⟩]
  livecomments := [⟨1, 20, 1, "great", 100, 0, false⟩, ⟨2, 21, 1, "nice", 50, 0, false⟩]
  ngWords := []
  nextNgWordID := 1
  nextLivecommentID := 3

/-- Example state for the C3 cascade scenario: livestream 1 (owner user 10)
with visible comments "hello world", "spam here" and "clean", no rules yet. -/
def exModDB : DBState where
  users := [⟨10, "alice", "Alice", "", "pw"⟩]
  livestreams := [⟨1, 10, "stream"⟩]
  reactions := []
  livecomments := [⟨1, 20, 1, "hello world", 0, 0, false⟩,
    ⟨2, 21, 1, "spam here", 0, 0, false⟩, ⟨3, 22, 1, "clean", 0, 0, false⟩]
  ngWords := []
  nextNgWordID := 1
  nextLivecommentID := 4

/-- Example state for the post-time claims: livestream 1 (owner user 10) with
the single rule "banned" and no comments yet. -/
def exPostDB : DBState where
  users := [⟨10, "alice", "Alice", "", "pw"⟩]
  livestreams := [⟨1, 10, "stream"⟩]
  reactions := []
  livecomments := []
  ngWords := [⟨1, 10, 1, "banned", 0⟩]
  nextNgWordID := 2
  nextLivecommentID := 1

/-- State with no livestream at all (livestream 1 is missing). -/
def exMissingDB : DBState where
  users := [⟨10, "alice", "Alice", "", "pw"⟩]
  livestreams := []
  reactions := []
  livecomments := []
  ngWords := []
  nextNgWordID := 1
  nextLivecommentID := 1

/-- State where livestream 1 exists but belongs to user 20, not to the
requesting user 10. -/
def exForeignDB : DBState where
  users := [⟨10, "alice", "Alice", "", "pw"⟩, ⟨20, "bob", "Bob", "", "pw"⟩]
  livestreams := [⟨1, 20, "bobs stream"⟩]
  reactions := []
  livecomments := []
  ngWords := []
  nextNgWordID := 1
  nextLivecommentID := 1

/-- An empty icon-hash cache with the source's 100-second TTL. -/
def exEmptyCache : IconHashCache where
  m := fun _ => none
  ttl := 100

/-- A cache holding the digest "abc" for "alice", expiring at instant 100. -/
def exIconCache : IconHashCache where
  m := fun k => if k = "alice" then some ⟨"abc", 100⟩ else none
  ttl := 100

section RankingLemmas

variable {α K : Type} [LinearOrder K]

theorem scoreLt_trans (sc : α → Int) (ky : α → K) (a b c : α)
    (h1 : scoreLt sc ky a b) (h2 : scoreLt sc ky b c) : scoreLt sc ky a c := by
  rcases h1 with h1 | ⟨h1e, h1k⟩ <;> rcases h2 with h2 | ⟨h2e, h2k⟩
  · exact Or.inl (h1.trans h2)
  · exact Or.inl (h2e ▸ h1)
  · exact Or.inl (h1e ▸ h2)
  · exact Or.inr ⟨h1e.trans h2e, h1k.trans h2k⟩

theorem not_scoreLt_self (sc : α → Int) (ky : α → K) (a : α) : ¬ scoreLt sc ky a a := by
  rintro (h | ⟨-, h⟩) <;> exact absurd h (lt_irrefl _)

theorem not_scoreLt_of_scoreLe (sc : α → Int) (ky : α → K) (a b : α)
    (h : scoreLe sc ky a b) : ¬ scoreLt sc ky b a := by
  rintro (hl | ⟨hle, hlk⟩) <;> rcases h with h | ⟨he, hk⟩
  · exact absurd (h.trans hl) (lt_irrefl _)
  · exact absurd (he ▸ hl) (lt_irrefl _)
  · exact absurd (hle ▸ h) (lt_irrefl _)
  · exact absurd (lt_of_lt_of_le hlk hk) (lt_irrefl _)

theorem scoreLt_of_scoreLe_of_key_ne (sc : α → Int) (ky : α → K) (a b : α)
    (h : scoreLe sc ky a b) (hk : ky a ≠ ky b) : scoreLt sc ky a b := by
  rcases h with h | ⟨he, hle⟩
  · exact Or.inl h
  · exact Or.inr ⟨he, lt_of_le_of_ne hle hk⟩

theorem rankWalk_eq_takeWhile (ky : α → K) (target : K) (d : List α) :
    rankWalk ky target d = (d.takeWhile (fun e => decide (ky e ≠ target))).length + 1 := by
  induction d with
  | nil => simp [rankWalk]
  | cons e rest ih =>
    by_cases h : ky e = target
    · simp [rankWalk, List.takeWhile_cons, h]
    · simp [rankWalk, List.takeWhile_cons, h, ih]
      omega

theorem rankWalk_of_not_mem (ky : α → K) (target : K) (d : List α)
    (h : ∀ e ∈ d, ky e ≠ target) : rankWalk ky target d = d.length + 1 := by
  induction d with
  | nil => simp [rankWalk]
  | cons e rest ih =>
    have he := h e (List.mem_cons_self e rest)
    simp only [rankWalk, if_neg he]
    rw [ih fun x hx => h x (List.mem_cons_of_mem e hx)]
    simp [Nat.add_comm]

theorem takeWhile_length_lt (p : α → Bool) (d : List α) (x : α) (hx : x ∈ d)
    (hp : p x = false) : (d.takeWhile p).length < d.length := by
  induction d with
  | nil => cases hx
  | cons e rest ih =>
    by_cases h : p e = true
    · rcases List.mem_cons.mp hx with rfl | hx'
      · exact absurd h (by simp [hp])
      · simpa [List.takeWhile_cons, h] using Nat.succ_lt_succ (ih hx')
    · simp [List.takeWhile_cons, Bool.eq_false_iff.mpr h]

/-- On a list sorted descending by (score, key), with pairwise-distinct keys,
the rank loop returns 1 + the number of entries strictly above the target. -/
theorem rankWalk_sorted_desc (sc : α → Int) (ky : α → K) (t : α) (d : List α)
    (hp : d.Pairwise (fun a b => scoreLe sc ky b a))
    (hn : (d.map ky).Nodup) (ht : t ∈ d) :
    rankWalk ky (ky t) d = d.countP (fun e => decide (scoreLt sc ky t e)) + 1 := by
  induction d with
  | nil => cases ht
  | cons e rest ih =>
    rw [List.pairwise_cons] at hp
    obtain ⟨hpe, hprest⟩ := hp
    simp only [List.map_cons, List.nodup_cons, List.mem_map] at hn
    obtain ⟨hne, hnrest⟩ := hn
    by_cases hkey : ky e = ky t
    · have hte : t = e := by
        rcases List.mem_cons.mp ht with rfl | ht'
        · rfl
        · exact absurd ⟨t, ht', hkey.symm⟩ hne
      subst hte
      rw [rankWalk, if_pos hkey, List.countP_cons]
      have h0 : rest.countP (fun e => decide (scoreLt sc ky t e)) = 0 := by
        rw [List.countP_eq_zero]
        intro x hx
        simpa using not_scoreLt_of_scoreLe sc ky x t (hpe x hx)
      simp [h0, not_scoreLt_self sc ky t]
    · have ht' : t ∈ rest := by
        rcases List.mem_cons.mp ht with rfl | ht'
        · exact absurd rfl hkey
        · exact ht'
      rw [rankWalk, if_neg hkey, ih hprest hnrest ht', List.countP_cons]
      have hlt : scoreLt sc ky t e :=
        scoreLt_of_scoreLe_of_key_ne sc ky t e (hpe t ht') fun h => hkey h.symm
      simp [hlt]
      omega

/-- Rank characterization: for a population with pairwise-distinct keys, the
rank of a member `t` is 1 + the number of entries strictly (score, key)-above it. -/
theorem computeRank_eq_countP (sc : α → Int) (ky : α → K) (l : List α)
    (hn : (l.map ky).Nodup) (t : α) (ht : t ∈ l) :
    computeRank sc ky l (ky t) = l.countP (fun e => decide (scoreLt sc ky t e)) + 1 := by
  have hperm : (sortRanking sc ky l).Perm l := List.perm_insertionSort _ l
  have hsorted : (sortRanking sc ky l).Sorted (scoreLe sc ky) :=
    List.sorted_insertionSort _ l
  have hrevp : (sortRanking sc ky l).reverse.Pairwise (fun a b => scoreLe sc ky b a) :=
    List.pairwise_reverse.mpr hsorted
  have hrevn : ((sortRanking sc ky l).reverse.map ky).Nodup := by
    rw [List.map_reverse, List.nodup_reverse]
    exact ((hperm.map ky).nodup_iff).mpr hn
  have hmem : t ∈ (sortRanking sc ky l).reverse := by
    rw [List.mem_reverse]
    exact hperm.mem_iff.mpr ht
  rw [computeRank, rankWalk_sorted_desc sc ky t _ hrevp hrevn hmem,
    List.countP_reverse, hperm.countP_eq]

theorem countP_lt_countP (p q : α → Bool) (l : List α)
    (hmono : ∀ x ∈ l, p x = true → q x = true) (x : α) (hx : x ∈ l)
    (hqx : q x = true) (hpx : p x = false) : l.countP p < l.countP q := by
  induction l with
  | nil => cases hx
  | cons e rest ih =>
    have hmono' : ∀ y ∈ rest, p y = true → q y = true := fun y hy =>
      hmono y (List.mem_cons_of_mem e hy)
    have hle : rest.countP p ≤ rest.countP q := List.countP_mono_left hmono'
    rcases List.mem_cons.mp hx with rfl | hx'
    · rw [List.countP_cons, List.countP_cons, hpx, hqx]
      simpa using Nat.lt_succ_of_le hle
    · have hlt := ih hmono' hx'
      rw [List.countP_cons, List.countP_cons]
      have : (if p e then 1 else 0) ≤ (if q e then 1 else 0) := by
        by_cases hpe : p e = true
        · simp [hpe, hmono e (List.mem_cons_self e rest) hpe]
        · simp [Bool.eq_false_iff.mpr hpe]
      omega

/-- Among equal scores, the entry with the *greater* tie-break key receives the
numerically smaller (better) rank. -/
theorem computeRank_lt_of_equal_score_gt_key (sc : α → Int) (ky : α → K)
    (pop : List α) (a b : α) (hn : (pop.map ky).Nodup) (ha : a ∈ pop) (hb : b ∈ pop)
    (hsc : sc a = sc b) (hk : ky b < ky a) :
    computeRank sc ky pop (ky a) < computeRank sc ky pop (ky b) := by
  rw [computeRank_eq_countP sc ky pop hn a ha, computeRank_eq_countP sc ky pop hn b hb]
  have hba : scoreLt sc ky b a := Or.inr ⟨hsc.symm, hk⟩
  have hmono : ∀ x ∈ pop, decide (scoreLt sc ky a x) = true →
      decide (scoreLt sc ky b x) = true := by
    intro x _ hx
    exact decide_eq_true (scoreLt_trans sc ky b a x hba (of_decide_eq_true hx))
  have hcount := countP_lt_countP _ _ pop hmono a ha
    (decide_eq_true hba) (decide_eq_false (not_scoreLt_self sc ky a))
  omega

end RankingLemmas

theorem livestreamLess_eq_scoreLt (a b : LivestreamRankingEntry) :
    LivestreamRanking.Less a b =
      decide (scoreLt LivestreamRankingEntry.score LivestreamRankingEntry.livestreamID a b) := by
  simp only [LivestreamRanking.Less, scoreLt]
  by_cases h : a.score = b.score <;> simp [h]

theorem userLess_eq_scoreLt (a b : UserRankingEntry) :
    UserRanking.Less a b =
      decide (scoreLt UserRankingEntry.score UserRankingEntry.username a b) := by
  simp only [UserRanking.Less, scoreLt]
  by_cases h : a.score = b.score <;> simp [h]

/-- C1 counterexample: on the claim's own example — scores [5,5,5] on livestream
ids [3,1,2] — the rank loop gives id 1 (the lowest tie-break key) the *worst*
rank 3 and id 3 (the highest key) the best rank 1, refuting "the lowest
tie-break key among equal scores receives the numerically smallest rank". -/
theorem equal_scores_lowest_key_not_best :
    livestreamComputeRank [⟨3, 5⟩, ⟨1, 5⟩, ⟨2, 5⟩] 1 = 3 ∧
    livestreamComputeRank [⟨3, 5⟩, ⟨1, 5⟩, ⟨2, 5⟩] 3 = 1 := by
  constructor <;> rfl

/-- C1 (amended): the sort is ascending by (score, tie-break key) but the rank
loop walks from the top index down, so among a group of entities with equal
scores the entity with the *greatest* tie-break key (highest numeric id for
livestreams, lexicographically greatest name for users) receives the
numerically smallest (best) rank. -/
theorem equal_scores_greatest_key_ranks_best :
    (∀ (pop : List LivestreamRankingEntry) (a b : LivestreamRankingEntry),
      (pop.map LivestreamRankingEntry.livestreamID).Nodup → a ∈ pop → b ∈ pop →
      a.score = b.score → b.livestreamID < a.livestreamID →
      livestreamComputeRank pop a.livestreamID < livestreamComputeRank pop b.livestreamID)
    ∧ (∀ (pop : List UserRankingEntry) (a b : UserRankingEntry),
      (pop.map UserRankingEntry.username).Nodup → a ∈ pop → b ∈ pop →
      a.score = b.score → b.username < a.username →
      userComputeRank pop a.username < userComputeRank pop b.username) := by
  constructor
  · intro pop a b hn ha hb hsc hk
    exact computeRank_lt_of_equal_score_gt_key _ _ pop a b hn ha hb hsc hk
  · intro pop a b hn ha hb hsc hk
    exact computeRank_lt_of_equal_score_gt_key _ _ pop a b hn ha hb hsc hk

theorem equal_scores_greatest_key_ranks_best_witness :
    livestreamComputeRank [⟨3, 5⟩, ⟨1, 5⟩, ⟨2, 5⟩] 3 <
      livestreamComputeRank [⟨3, 5⟩, ⟨1, 5⟩, ⟨2, 5⟩] 1 ∧
    userComputeRank [⟨"c", 7⟩, ⟨"a", 7⟩] "c" < userComputeRank [⟨"c", 7⟩, ⟨"a", 7⟩] "a" :=
  ⟨equal_scores_greatest_key_ranks_best.1 [⟨3, 5⟩, ⟨1, 5⟩, ⟨2, 5⟩] ⟨3, 5⟩ ⟨1, 5⟩
      (by decide) (by decide) (by decide) (by decide) (by decide),
    equal_scores_greatest_key_ranks_best.2 [⟨"c", 7⟩, ⟨"a", 7⟩] ⟨"c", 7⟩ ⟨"a", 7⟩
      (by decide) (by decide) (by decide) (by decide)
      (String.lt_iff_toList_lt.mpr (by decide))⟩

/-- C8: if the target id appears nowhere in the population, the computed rank
degenerates to `N + 1` ("last place + 1"); when the target is present, the rank
walk stops at it, returning its 1-based position from the highest-scoring end,
which in particular is at most `N`. -/
theorem absent_target_rank_degenerates (pop : List LivestreamRankingEntry) (target : Int) :
    ((∀ e ∈ pop, e.livestreamID ≠ target) →
      livestreamComputeRank pop target = pop.length + 1)
    ∧ (∀ t ∈ pop, t.livestreamID = target →
      livestreamComputeRank pop target =
        ((sortRanking LivestreamRankingEntry.score LivestreamRankingEntry.livestreamID
            pop).reverse.takeWhile (fun e => decide (e.livestreamID ≠ target))).length + 1
      ∧ livestreamComputeRank pop target ≤ pop.length) := by
  have hperm : (sortRanking LivestreamRankingEntry.score
      LivestreamRankingEntry.livestreamID pop).Perm pop := List.perm_insertionSort _ pop
  constructor
  · intro habs
    rw [livestreamComputeRank, computeRank, rankWalk_of_not_mem]
    · rw [List.length_reverse, hperm.length_eq]
    · intro e he
      exact habs e (hperm.mem_iff.mp (List.mem_reverse.mp he))
  · intro t ht htid
    have heq := rankWalk_eq_takeWhile LivestreamRankingEntry.livestreamID target
      (sortRanking LivestreamRankingEntry.score LivestreamRankingEntry.livestreamID
        pop).reverse
    refine ⟨heq, ?_⟩
    have hmem : t ∈ (sortRanking LivestreamRankingEntry.score
        LivestreamRankingEntry.livestreamID pop).reverse := by
      rw [List.mem_reverse]
      exact hperm.mem_iff.mpr ht
    have hlt := takeWhile_length_lt (fun e => decide (e.livestreamID ≠ target)) _ t hmem
      (by simp [htid])
    rw [livestreamComputeRank, computeRank, heq]
    rw [List.length_reverse, hperm.length_eq] at hlt
    omega

theorem absent_target_rank_degenerates_witness :
    livestreamComputeRank [⟨1, 10⟩, ⟨2, 20⟩] 5 = 3 ∧
    livestreamComputeRank [⟨1, 10⟩, ⟨2, 20⟩] 2 ≤ 2 :=
  ⟨(absent_target_rank_degenerates [⟨1, 10⟩, ⟨2, 20⟩] 5).1 (by decide),
    (((absent_target_rank_degenerates [⟨1, 10⟩, ⟨2, 20⟩] 2).2 ⟨2, 20⟩
      (by decide) (by decide)).2)⟩

theorem hideComments_cons (ids : List Int) (x : LivecommentModel)
    (L : List LivecommentModel) :
    hideComments ids (x :: L) =
      (if x.id ∈ ids then { x with isDeleted := true } else x) :: hideComments ids L := rfl

theorem visibleTips_cons (lsID : Int) (x : LivecommentModel) (L : List LivecommentModel) :
    visibleTips lsID (x :: L) =
      (if x.livestreamID = lsID ∧ x.isDeleted = false then x.tip else 0)
        + visibleTips lsID L := by
  by_cases h : x.livestreamID = lsID ∧ x.isDeleted = false
  · simp [visibleTips, List.filter_cons, h]
  · simp [visibleTips, List.filter_cons, h]

theorem hideComments_eq_of_not_mem (ids : List Int) (cs : List LivecommentModel)
    (h : ∀ x ∈ cs, x.id ∉ ids) : hideComments ids cs = cs := by
  induction cs with
  | nil => rfl
  | cons e rest ih =>
    rw [hideComments_cons, if_neg (h e (List.mem_cons_self e rest)),
      ih fun x hx => h x (List.mem_cons_of_mem e hx)]

/-- Hiding comments that all live on other livestreams does not change a
livestream's visible-tip total. -/
theorem visibleTips_hideComments_of_ne (lsID : Int) (ids : List Int)
    (cs : List LivecommentModel)
    (h : ∀ x ∈ cs, x.id ∈ ids → x.livestreamID ≠ lsID) :
    visibleTips lsID (hideComments ids cs) = visibleTips lsID cs := by
  induction cs with
  | nil => rfl
  | cons e rest ih =>
    have ih' := ih fun x hx hxid => h x (List.mem_cons_of_mem e hx) hxid
    rw [hideComments_cons, visibleTips_cons, visibleTips_cons, ih']
    by_cases hid : e.id ∈ ids
    · have hne : e.livestreamID ≠ lsID := h e (List.mem_cons_self e rest) hid
      rw [if_pos hid]
      simp [hne]
    · rw [if_neg hid]

/-- Hiding one visible comment removes exactly its tip from its livestream's
visible-tip total (comment ids pairwise distinct). -/
theorem visibleTips_hideComments_mem (lsID : Int) (cs : List LivecommentModel)
    (c : LivecommentModel) (hn : (cs.map LivecommentModel.id).Nodup)
    (hc : c ∈ cs) (hvis : c.isDeleted = false) (hls : c.livestreamID = lsID) :
    visibleTips lsID (hideComments [c.id] cs) = visibleTips lsID cs - c.tip := by
  induction cs with
  | nil => cases hc
  | cons e rest ih =>
    simp only [List.map_cons, List.nodup_cons, List.mem_map] at hn
    obtain ⟨hne, hnrest⟩ := hn
    rw [hideComments_cons, visibleTips_cons, visibleTips_cons]
    rcases List.mem_cons.mp hc with rfl | hc'
    · have hrest : hideComments [c.id] rest = rest := by
        apply hideComments_eq_of_not_mem
        intro x hx
        simp only [List.mem_singleton]
        intro hxid
        exact hne ⟨x, hx, hxid⟩
      rw [if_pos (List.mem_singleton.mpr rfl), hrest]
      simp [hls, hvis]
    · have heid : e.id ∉ ([c.id] : List Int) := by
        simp only [List.mem_singleton]
        intro h
        exact hne ⟨c, hc', h.symm⟩
      rw [if_neg heid, ih hnrest hc']
      omega

/-- Changing the per-element value at one element of a list (occurring exactly
once) shifts the mapped sum by that element's delta. -/
theorem sum_map_update_single {β : Type} [DecidableEq β] (g g' : β → Int)
    (L : List β) (x : β) (hx : x ∈ L) (hcount : L.count x = 1)
    (hother : ∀ y ∈ L, y ≠ x → g' y = g y) :
    (L.map g').sum = (L.map g).sum + (g' x - g x) := by
  induction L with
  | nil => cases hx
  | cons e rest ih =>
    by_cases hex : e = x
    · subst hex
      have hxnot : e ∉ rest := by
        rw [List.count_cons_self] at hcount
        exact List.count_eq_zero.mp (by omega)
      have hrest : rest.map g' = rest.map g := by
        apply List.map_congr_left
        intro y hy
        exact hother y (List.mem_cons_of_mem e hy) fun hye => hxnot (hye ▸ hy)
      simp only [List.map_cons, List.sum_cons, hrest]
      omega
    · have hx' : x ∈ rest := by
        rcases List.mem_cons.mp hx with h | h
        · exact absurd h.symm hex
        · exact h
      have hcount' : rest.count x = 1 := by
        rw [List.count_cons] at hcount
        simpa [hex] using hcount
      have hge : g' e = g e := hother e (List.mem_cons_self e rest) hex
      have ih' := ih hx' hcount' fun y hy hyx => hother y (List.mem_cons_of_mem e hy) hyx
      simp only [List.map_cons, List.sum_cons, hge, ih']
      omega

/-- C2: the score both statistics handlers feed into the ranking is the
reaction count plus the visible-comment (`is_deleted = 0`) tip total,
recomputed from the current storage state; consequently hiding one visible
comment with tip `t` lowers the recomputed livestream score — and its owner's
recomputed user score — by exactly `t`. -/
theorem ranking_score_recomputed (db : DBState) (l : LivestreamModel)
    (c : LivecommentModel)
    (hcn : (db.livecomments.map LivecommentModel.id).Nodup)
    (hln : (db.livestreams.map LivestreamModel.id).Nodup)
    (hl : l ∈ db.livestreams) (hc : c ∈ db.livecomments)
    (hvis : c.isDeleted = false) (hcls : c.livestreamID = l.id) :
    (∀ e ∈ livestreamRankingOf db,
      e.score = reactionsOfLivestream db e.livestreamID + tipsOfLivestream db e.livestreamID)
    ∧ (∀ e ∈ userRankingOf db, ∃ u ∈ db.users,
      e.username = u.name ∧ e.score = reactionsOfUser db u.id + tipsOfUser db u.id)
    ∧ livestreamScore (applyHide db [c.id]) l.id = livestreamScore db l.id - c.tip
    ∧ userScore (applyHide db [c.id]) l.userID = userScore db l.userID - c.tip := by
  have hComments : ∀ y ∈ db.livecomments, ∀ z ∈ db.livecomments, y.id = z.id → y = z :=
    fun y hy z hz h => List.inj_on_of_nodup_map hcn hy hz h
  have hStreams : ∀ y ∈ db.livestreams, ∀ z ∈ db.livestreams, y.id = z.id → y = z :=
    fun y hy z hz h => List.inj_on_of_nodup_map hln hy hz h
  have hTipsDrop : visibleTips l.id (hideComments [c.id] db.livecomments)
      = visibleTips l.id db.livecomments - c.tip :=
    visibleTips_hideComments_mem l.id db.livecomments c hcn hc hvis hcls
  refine ⟨?_, ?_, ?_, ?_⟩
  · intro e he
    obtain ⟨l', _, rfl⟩ := List.mem_map.mp he
    rfl
  · intro e he
    obtain ⟨u, hu, rfl⟩ := List.mem_map.mp he
    exact ⟨u, hu, rfl, rfl⟩
  · show reactionsOfLivestream db l.id
        + visibleTips l.id (hideComments [c.id] db.livecomments)
      = reactionsOfLivestream db l.id + visibleTips l.id db.livecomments - c.tip
    omega
  · have hreac : reactionsOfUser (applyHide db [c.id]) l.userID
        = reactionsOfUser db l.userID := rfl
    have hx : l ∈ db.livestreams.filter (fun l' => decide (l'.userID = l.userID)) :=
      List.mem_filter.mpr ⟨hl, by simp⟩
    have hcount : (db.livestreams.filter
        (fun l' => decide (l'.userID = l.userID))).count l = 1 :=
      List.count_eq_one_of_mem ((List.Nodup.of_map _ hln).filter _) hx
    have htips : tipsOfUser (applyHide db [c.id]) l.userID
        = tipsOfUser db l.userID + (visibleTips l.id (hideComments [c.id] db.livecomments)
          - visibleTips l.id db.livecomments) := by
      show ((db.livestreams.filter (fun l' => decide (l'.userID = l.userID))).map
          (fun l' => visibleTips l'.id (hideComments [c.id] db.livecomments))).sum
        = ((db.livestreams.filter (fun l' => decide (l'.userID = l.userID))).map
          (fun l' => visibleTips l'.id db.livecomments)).sum
          + (visibleTips l.id (hideComments [c.id] db.livecomments)
            - visibleTips l.id db.livecomments)
      apply sum_map_update_single _ _ _ l hx hcount
      intro y hy hyl
      have hymem := (List.mem_filter.mp hy).1
      have hyid : y.id ≠ l.id := fun h => hyl (hStreams y hymem l hl h)
      apply visibleTips_hideComments_of_ne
      intro x hx' hxid
      rw [List.mem_singleton] at hxid
      rw [hComments x hx' c hc hxid, hcls]
      exact fun h => hyid h.symm
    show reactionsOfUser (applyHide db [c.id]) l.userID
        + tipsOfUser (applyHide db [c.id]) l.userID
      = reactionsOfUser db l.userID + tipsOfUser db l.userID - c.tip
    rw [hreac, htips, hTipsDrop]
    omega

theorem ranking_score_recomputed_witness :
    livestreamScore exScoreDB 1 = 153 ∧
    livestreamScore (applyHide exScoreDB [2]) 1 = livestreamScore exScoreDB 1 - 50 ∧
    userScore (applyHide exScoreDB [2]) 10 = userScore exScoreDB 10 - 50 :=
  ⟨by decide,
    (ranking_score_recomputed exScoreDB ⟨1, 10, "stream"⟩ ⟨2, 21, 1, "nice", 50, 0, false⟩
      (by decide) (by decide) (by decide) (by decide) (by decide) (by decide)).2.2.1,
    (ranking_score_recomputed exScoreDB ⟨1, 10, "stream"⟩ ⟨2, 21, 1, "nice", 50, 0, false⟩
      (by decide) (by decide) (by decide) (by decide) (by decide) (by decide)).2.2.2⟩

theorem mem_filter_map_id_iff (cs : List LivecommentModel)
    (hn : (cs.map LivecommentModel.id).Nodup) (p : LivecommentModel → Bool)
    (c : LivecommentModel) (hc : c ∈ cs) :
    c.id ∈ (cs.filter p).map LivecommentModel.id ↔ p c = true := by
  constructor
  · intro h
    obtain ⟨x, hxf, hxid⟩ := List.mem_map.mp h
    obtain ⟨hxmem, hxp⟩ := List.mem_filter.mp hxf
    rwa [List.inj_on_of_nodup_map hn hxmem hc hxid] at hxp
  · intro hp
    exact List.mem_map_of_mem _ (List.mem_filter.mpr ⟨hc, hp⟩)

/-- Batch-hiding the ids of the comments selected by a predicate is the
pointwise conditional soft delete (comment ids pairwise distinct). -/
theorem hideComments_filter_map_id (cs : List LivecommentModel)
    (hn : (cs.map LivecommentModel.id).Nodup) (p : LivecommentModel → Bool) :
    hideComments ((cs.filter p).map LivecommentModel.id) cs
      = cs.map (fun c => if p c = true then { c with isDeleted := true } else c) := by
  unfold hideComments
  apply List.map_congr_left
  intro c hc
  by_cases hp : p c = true
  · rw [if_pos ((mem_filter_map_id_iff cs hn p c hc).mpr hp), if_pos hp]
  · rw [if_neg (fun hmem => hp ((mem_filter_map_id_iff cs hn p c hc).mp hmem)),
      if_neg hp]

/-- C3: a failure-free `moderateHandler` run on an owned livestream persists
the new rule, returns the new rule's id, and in one batch hides exactly those
visible comments of the livestream whose text contains (case-sensitive
substring) any rule of the re-fetched complete rule set — all current rules,
not only the new one; comments matching no rule, and every other table, stay
unchanged. Comment ids are assumed pairwise distinct (the primary key). -/
theorem addRule_full_resweep (db : DBState) (userID livestreamID : Int)
    (word : String) (now : Int)
    (hown : ∃ l ∈ db.livestreams, l.id = livestreamID ∧ l.userID = userID)
    (hcn : (db.livecomments.map LivecommentModel.id).Nodup) :
    ∃ db', moderateHandler db userID livestreamID word now noFailures
        = .ok db.nextNgWordID db'
      ∧ db'.ngWords = db.ngWords
          ++ [⟨db.nextNgWordID, userID, livestreamID, word, now⟩]
      ∧ db'.livecomments = db.livecomments.map (fun c =>
          if (decide (c.livestreamID = livestreamID ∧ c.isDeleted = false)
              && ((db.ngWords ++ [(⟨db.nextNgWordID, userID, livestreamID, word,
                    now⟩ : NGWord)]).filter
                  (fun w => decide (w.livestreamID = livestreamID))).any
                  (fun w => strContains c.comment w.word)) = true
          then { c with isDeleted := true } else c)
      ∧ db'.livestreams = db.livestreams ∧ db'.reactions = db.reactions
      ∧ db'.users = db.users := by
  obtain ⟨l, hl, hlid, hluser⟩ := hown
  have hmem : l ∈ db.livestreams.filter
      (fun l' => decide (l'.id = livestreamID) && decide (l'.userID = userID)) :=
    List.mem_filter.mpr ⟨hl, by simp [hlid, hluser]⟩
  have hlen : ¬ (db.livestreams.filter
      (fun l' => decide (l'.id = livestreamID) && decide (l'.userID = userID))).length
        = 0 := by
    have := List.length_pos.mpr (List.ne_nil_of_mem hmem)
    omega
  have hsweep : sweepTargets db userID livestreamID word now
      = (db.livecomments.filter (fun c =>
          decide (c.livestreamID = livestreamID ∧ c.isDeleted = false)
          && ((db.ngWords ++ [(⟨db.nextNgWordID, userID, livestreamID, word,
                now⟩ : NGWord)]).filter
              (fun w => decide (w.livestreamID = livestreamID))).any
              (fun w => strContains c.comment w.word))).map LivecommentModel.id := by
    rw [sweepTargets, List.filter_filter]
    congr 1
    apply List.filter_congr
    intro c _
    exact Bool.and_comm _ _
  by_cases hng : (sweepTargets db userID livestreamID word now).length = 0
  · refine ⟨{ db with
        ngWords := db.ngWords ++ [⟨db.nextNgWordID, userID, livestreamID, word, now⟩],
        nextNgWordID := db.nextNgWordID + 1 }, ?_, rfl, ?_, rfl, rfl, rfl⟩
    · simp only [moderateHandler, noFailures]
      rw [if_neg hlen, if_pos hng]
      rfl
    · show db.livecomments = _
      have hnil : db.livecomments.filter (fun c =>
          decide (c.livestreamID = livestreamID ∧ c.isDeleted = false)
          && ((db.ngWords ++ [(⟨db.nextNgWordID, userID, livestreamID, word,
                now⟩ : NGWord)]).filter
              (fun w => decide (w.livestreamID = livestreamID))).any
              (fun w => strContains c.comment w.word)) = [] := by
        rw [hsweep, List.length_map] at hng
        exact List.length_eq_zero.mp hng
      have hfalse := List.filter_eq_nil_iff.mp hnil
      have hid : db.livecomments.map (fun c =>
          if (decide (c.livestreamID = livestreamID ∧ c.isDeleted = false)
              && ((db.ngWords ++ [(⟨db.nextNgWordID, userID, livestreamID, word,
                    now⟩ : NGWord)]).filter
                  (fun w => decide (w.livestreamID = livestreamID))).any
                  (fun w => strContains c.comment w.word)) = true
          then { c with isDeleted := true } else c) = db.livecomments.map id := by
        apply List.map_congr_left
        intro c hc
        rw [if_neg (by simpa using hfalse c hc)]
        rfl
      rw [hid, List.map_id]
  · refine ⟨applyHide { db with
        ngWords := db.ngWords ++ [⟨db.nextNgWordID, userID, livestreamID, word, now⟩],
        nextNgWordID := db.nextNgWordID + 1 }
        (sweepTargets db userID livestreamID word now), ?_, rfl, ?_, rfl, rfl, rfl⟩
    · simp only [moderateHandler, noFailures]
      rw [if_neg hlen, if_neg hng]
      rfl
    · show hideComments (sweepTargets db userID livestreamID word now) db.livecomments = _
      rw [hsweep, hideComments_filter_map_id db.livecomments hcn]

theorem addRule_full_resweep_witness :
    ∃ db', moderateHandler exModDB 10 1 "spam" 99 noFailures
        = .ok exModDB.nextNgWordID db'
      ∧ db'.livecomments = [⟨1, 20, 1, "hello world", 0, 0, false⟩,
          ⟨2, 21, 1, "spam here", 0, 0, true⟩, ⟨3, 22, 1, "clean", 0, 0, false⟩] := by
  obtain ⟨db', h1, h2, h3, h4, h5, h6⟩ := addRule_full_resweep exModDB 10 1 "spam" 99
    ⟨⟨1, 10, "stream"⟩, by decide, rfl, rfl⟩ (by decide)
  refine ⟨db', h1, ?_⟩
  rw [h3]
  rfl

/-- C4: when the livestream exists, a post whose text contains any banned word
of that livestream is rejected with the distinct spam error and the storage
state is unchanged (no livecomment row created); with no matching rule the
comment row is inserted verbatim and returned. -/
theorem post_spam_rejected_or_created (db : DBState) (userID livestreamID : Int)
    (req : PostLivecommentRequest) (now : Int) (ls : LivestreamModel)
    (hfind : db.livestreams.find? (fun l => decide (l.id = livestreamID)) = some ls) :
    ((db.ngWords.filter (fun w => decide (w.livestreamID = ls.id))).any
        (fun w => strContains req.comment w.word) = true →
      postLivecommentHandler db userID livestreamID req now = .spamRejected db)
    ∧ ((db.ngWords.filter (fun w => decide (w.livestreamID = ls.id))).any
        (fun w => strContains req.comment w.word) = false →
      postLivecommentHandler db userID livestreamID req now =
        .created ⟨db.nextLivecommentID, userID, livestreamID, req.comment, req.tip,
            now, false⟩
          { db with
            livecomments := db.livecomments
              ++ [⟨db.nextLivecommentID, userID, livestreamID, req.comment, req.tip,
                now, false⟩],
            nextLivecommentID := db.nextLivecommentID + 1 }) := by
  constructor
  · intro hmatch
    rw [postLivecommentHandler, hfind]
    simp only [hmatch]
    rfl
  · intro hmatch
    rw [postLivecommentHandler, hfind]
    simp only [hmatch]
    rfl

theorem post_spam_rejected_or_created_witness :
    postLivecommentHandler exPostDB 20 1 ⟨"this is banned content", 5⟩ 50
        = .spamRejected exPostDB
    ∧ postLivecommentHandler exPostDB 20 1 ⟨"all clean", 5⟩ 50
        = .created ⟨1, 20, 1, "all clean", 5, 50, false⟩
          { exPostDB with
            livecomments := [⟨1, 20, 1, "all clean", 5, 50, false⟩],
            nextLivecommentID := 2 } :=
  ⟨(post_spam_rejected_or_created exPostDB 20 1 ⟨"this is banned content", 5⟩ 50
      ⟨1, 10, "stream"⟩ (by decide)).1 (by decide),
    (post_spam_rejected_or_created exPostDB 20 1 ⟨"all clean", 5⟩ 50
      ⟨1, 10, "stream"⟩ (by decide)).2 (by decide)⟩

/-- C5 counterexample: `moderateHandler` checks ownership with the single
query `WHERE id = ? AND user_id = ?`, so a missing livestream takes exactly
the same branch — and produces exactly the same 400 permission response — as
an owner mismatch: the two conditions are not distinguishable, refuting
"authorization failure is reported distinctly from not-found". -/
theorem moderate_missing_equals_mismatch :
    moderateHandler exMissingDB 10 1 "x" 0 noFailures = .permissionErr exMissingDB
    ∧ moderateHandler exForeignDB 10 1 "x" 0 noFailures = .permissionErr exForeignDB := by
  constructor <;> rfl

/-- C5 (amended): whenever no livestream row matches (id, requesting user) —
owner mismatch or missing livestream alike — `moderateHandler` fails with the
one permission error and inserts no rule (the state it reports is unchanged);
the missing-livestream case is not reported as a distinct not-found outcome. -/
theorem moderate_unowned_rejected (db : DBState) (userID livestreamID : Int)
    (word : String) (now : Int) (f : ModerateFailures)
    (h : ∀ l ∈ db.livestreams, ¬(l.id = livestreamID ∧ l.userID = userID)) :
    moderateHandler db userID livestreamID word now f = .permissionErr db := by
  have hnil : db.livestreams.filter
      (fun l => decide (l.id = livestreamID) && decide (l.userID = userID)) = [] := by
    rw [List.filter_eq_nil_iff]
    intro l hl
    simp only [Bool.and_eq_true, decide_eq_true_eq]
    exact h l hl
  rw [moderateHandler, hnil]
  rfl

theorem moderate_unowned_rejected_witness :
    moderateHandler exForeignDB 10 1 "x" 0 noFailures = .permissionErr exForeignDB :=
  moderate_unowned_rejected exForeignDB 10 1 "x" 0 noFailures (by decide)

/-- C6: `moderateHandler` runs entirely inside one transaction with a deferred
rollback and a final commit, so (1) if any step after persisting the new rule
fails — the rule-set re-fetch, the visible-comment fetch, or the batch hide
when it has targets — the whole operation fails and reports the unchanged
pre-call state: the rule is not committed; (2) every failure outcome carries
the unchanged state; and (3) every success commits both the appended rule and
the applied sweep — never the rule without the sweep. -/
theorem addRule_sweep_failure_atomic (db : DBState) (userID livestreamID : Int)
    (word : String) (now : Int)
    (hown : ∃ l ∈ db.livestreams, l.id = livestreamID ∧ l.userID = userID) :
    (∀ f : ModerateFailures,
      f.failSelectNgWords = true ∨ f.failSelectLivecomments = true ∨
        (f.failUpdate = true ∧ sweepTargets db userID livestreamID word now ≠ []) →
      moderateHandler db userID livestreamID word now f = .internalErr db)
    ∧ (∀ (f : ModerateFailures) (d : DBState),
      moderateHandler db userID livestreamID word now f = .internalErr d → d = db)
    ∧ (∀ (f : ModerateFailures) (wid : Int) (d : DBState),
      moderateHandler db userID livestreamID word now f = .ok wid d →
      wid = db.nextNgWordID
      ∧ d.ngWords = db.ngWords ++ [⟨db.nextNgWordID, userID, livestreamID, word, now⟩]
      ∧ d.livecomments = hideComments (sweepTargets db userID livestreamID word now)
          db.livecomments) := by
  obtain ⟨l, hl, hlid, hluser⟩ := hown
  have hmem : l ∈ db.livestreams.filter
      (fun l' => decide (l'.id = livestreamID) && decide (l'.userID = userID)) :=
    List.mem_filter.mpr ⟨hl, by simp [hlid, hluser]⟩
  have hlen : ¬ (db.livestreams.filter
      (fun l' => decide (l'.id = livestreamID) && decide (l'.userID = userID))).length
        = 0 := by
    have := List.length_pos.mpr (List.ne_nil_of_mem hmem)
    omega
  refine ⟨?_, ?_, ?_⟩
  · intro f hf
    simp only [moderateHandler]
    rw [if_neg hlen]
    rcases hf with h1 | h2 | ⟨h3, h4⟩
    · simp [h1]
    · by_cases h1 : f.failSelectNgWords = true
      · simp [h1]
      · simp [h1, h2]
    · have h5 : ¬ (sweepTargets db userID livestreamID word now).length = 0 :=
        fun h => h4 (List.length_eq_zero.mp h)
      by_cases h1 : f.failSelectNgWords = true
      · simp [h1]
      · by_cases h2 : f.failSelectLivecomments = true
        · simp [h1, h2]
        · simp [h1, h2, h5, h3]
  · intro f d h
    simp only [moderateHandler] at h
    split at h
    · exact absurd h (by simp)
    · split at h
      · injection h with h'
        exact h'.symm
      · split at h
        · injection h with h'
          exact h'.symm
        · split at h
          · exact absurd h (by simp)
          · split at h
            · injection h with h'
              exact h'.symm
            · exact absurd h (by simp)
  · intro f wid d h
    simp only [moderateHandler] at h
    split at h
    · exact absurd h (by simp)
    · split at h
      · exact absurd h (by simp)
      · split at h
        · exact absurd h (by simp)
        · split at h
          · injection h with h1 h2
            subst h2
            refine ⟨h1.symm, rfl, ?_⟩
            have hnil : sweepTargets db userID livestreamID word now = [] := by
              next hz => exact List.length_eq_zero.mp hz
            rw [hnil, hideComments_eq_of_not_mem]
            intro x _
            simp
          · split at h
            · exact absurd h (by simp)
            · injection h with h1 h2
              subst h2
              exact ⟨h1.symm, rfl, rfl⟩

theorem addRule_sweep_failure_atomic_witness :
    moderateHandler exModDB 10 1 "spam" 99 ⟨true, false, false⟩
      = .internalErr exModDB :=
  (addRule_sweep_failure_atomic exModDB 10 1 "spam" 99
    ⟨⟨1, 10, "stream"⟩, by decide, rfl, rfl⟩).1 ⟨true, false, false⟩ (Or.inl rfl)

/-- C9 counterexample: `postLivecommentHandler` performs no validation of the
request's tip, so a request body with tip −5 is accepted and stored: the
created row's tip is negative, refuting "the post operation never creates a
row whose tip is negative, for any request body". -/
theorem negative_tip_row_created :
    postLivecommentHandler exPostDB 20 1 ⟨"hello", -5⟩ 7
      = .created ⟨1, 20, 1, "hello", -5, 7, false⟩
        { exPostDB with
          livecomments := [⟨1, 20, 1, "hello", -5, 7, false⟩],
          nextLivecommentID := 2 }
    ∧ (⟨1, 20, 1, "hello", -5, 7, false⟩ : LivecommentModel).tip < 0 :=
  ⟨rfl, by decide⟩

/-- C9 (amended): the post operation stores the request's tip verbatim with no
sign check, so stored tips stay non-negative exactly as long as every accepted
request carries a non-negative tip: a post with `0 ≤ req.tip` on a state whose
comments all have non-negative tips yields a created row with `tip = req.tip`
and a state whose comments all have non-negative tips. -/
theorem post_preserves_nonneg_tips (db : DBState) (userID livestreamID : Int)
    (req : PostLivecommentRequest) (now : Int)
    (hreq : 0 ≤ req.tip) (hinv : ∀ lc ∈ db.livecomments, 0 ≤ lc.tip) :
    ∀ lc' db', postLivecommentHandler db userID livestreamID req now
        = .created lc' db' →
      lc'.tip = req.tip ∧ ∀ x ∈ db'.livecomments, 0 ≤ x.tip := by
  intro lc' db' h
  rw [postLivecommentHandler] at h
  rcases hfind : db.livestreams.find? (fun l => decide (l.id = livestreamID)) with _ | ls
  · rw [hfind] at h
    exact absurd h (by simp)
  · rw [hfind] at h
    simp only at h
    split at h
    · exact absurd h (by simp)
    · injection h with h1 h2
      subst h1
      subst h2
      refine ⟨rfl, ?_⟩
      intro x hx
      rcases List.mem_append.mp hx with hx' | hx'
      · exact hinv x hx'
      · rw [List.mem_singleton.mp hx']
        exact hreq

theorem post_preserves_nonneg_tips_witness :
    (⟨1, 20, 1, "all clean", 5, 50, false⟩ : LivecommentModel).tip = 5
    ∧ 0 ≤ (⟨1, 20, 1, "all clean", 5, 50, false⟩ : LivecommentModel).tip := by
  have h := post_preserves_nonneg_tips exPostDB 20 1 ⟨"all clean", 5⟩ 50 (by decide)
    (by decide) ⟨1, 20, 1, "all clean", 5, 50, false⟩
    { exPostDB with
      livecomments := [⟨1, 20, 1, "all clean", 5, 50, false⟩],
      nextLivecommentID := 2 } rfl
  exact ⟨h.1, h.2 _ (by decide)⟩

theorem IconHashCache.get_of_none (c : IconHashCache) (now : Int) (u : String)
    (h : c.m u = none) : c.get now u = ("", c) := by
  unfold IconHashCache.get
  rw [h]

theorem IconHashCache.get_of_live (c : IconHashCache) (now : Int) (u : String)
    (ih : IconHash) (h : c.m u = some ih) (hexp : ¬ ih.expireTime < now) :
    c.get now u = (ih.iconHash, c) := by
  unfold IconHashCache.get
  rw [h]
  dsimp only
  rw [if_neg hexp]

theorem IconHashCache.get_of_expired (c : IconHashCache) (now : Int) (u : String)
    (ih : IconHash) (h : c.m u = some ih) (hexp : ih.expireTime < now) :
    c.get now u = ("", { c with m := fun k => if k = u then none else c.m k }) := by
  unfold IconHashCache.get
  rw [h]
  dsimp only
  rw [if_pos hexp]

theorem IconHashCache.set_m_self (c : IconHashCache) (now : Int) (k v : String) :
    (c.set now k v).m k = some ⟨v, now + c.ttl⟩ := by
  simp [IconHashCache.set]

/-- C7: `Set` stores the entry with expiry `now + ttl`; a `Get` strictly
before the expiry instant returns the stored value; a `Get` strictly after it
returns absent ("") and lazily evicts the entry; after such an eviction a
fresh `Set` succeeds and a pre-expiry `Get` returns the new value. -/
theorem cache_ttl_contract (c : IconHashCache) (now : Int) (k v : String) :
    ((c.set now k v).m k = some ⟨v, now + c.ttl⟩)
    ∧ (∀ t, t < now + c.ttl → ((c.set now k v).get t k).1 = v)
    ∧ (∀ t, now + c.ttl < t →
        ((c.set now k v).get t k).1 = "" ∧ (((c.set now k v).get t k).2).m k = none)
    ∧ (∀ t t2 v2 t3, now + c.ttl < t → t3 < t2 + c.ttl →
        (((((c.set now k v).get t k).2).set t2 k v2).get t3 k).1 = v2) := by
  have hmk := IconHashCache.set_m_self c now k v
  have hexpired : ∀ t, now + c.ttl < t →
      (c.set now k v).get t k = ("", { c.set now k v with
        m := fun k' => if k' = k then none else (c.set now k v).m k' }) := by
    intro t ht
    exact IconHashCache.get_of_expired _ t k _ hmk (by dsimp only; omega)
  refine ⟨hmk, ?_, ?_, ?_⟩
  · intro t ht
    rw [IconHashCache.get_of_live _ t k _ hmk (by dsimp only; omega)]
  · intro t ht
    rw [hexpired t ht]
    simp
  · intro t t2 v2 t3 ht ht3
    rw [hexpired t ht]
    have hm2 : ((("", { c.set now k v with
        m := fun k' => if k' = k then none else (c.set now k v).m k' }).2).set
          t2 k v2).m k = some ⟨v2, t2 + c.ttl⟩ := by
      simp [IconHashCache.set]
    rw [IconHashCache.get_of_live _ t3 k _ hm2 (by dsimp only; omega)]

theorem cache_ttl_contract_witness :
    ((exEmptyCache.set 0 "u" "h").m "u" = some ⟨"h", 100⟩)
    ∧ ((exEmptyCache.set 0 "u" "h").get 50 "u").1 = "h"
    ∧ ((exEmptyCache.set 0 "u" "h").get 150 "u").1 = ""
    ∧ ((((exEmptyCache.set 0 "u" "h").get 150 "u").2).m) "u" = none
    ∧ (((((exEmptyCache.set 0 "u" "h").get 150 "u").2).set 200 "u" "h2").get
        250 "u").1 = "h2" :=
  ⟨(cache_ttl_contract exEmptyCache 0 "u" "h").1,
    (cache_ttl_contract exEmptyCache 0 "u" "h").2.1 50 (by decide),
    ((cache_ttl_contract exEmptyCache 0 "u" "h").2.2.1 150 (by decide)).1,
    ((cache_ttl_contract exEmptyCache 0 "u" "h").2.2.1 150 (by decide)).2,
    (cache_ttl_contract exEmptyCache 0 "u" "h").2.2.2 150 200 "h2" 250
      (by decide) (by decide)⟩

/-- C10: the icon endpoint answers 304 Not Modified exactly when the cache
holds an unexpired digest for the username that equals the If-None-Match value
after the quote stripping (every digest the handlers store is a 64-character
sha256 hex string, so a held digest is nonempty); with the entry absent or
expired, the full response is served no matter what the client sends — even a
header equal to the image's true hash. -/
theorem icon_not_modified_iff (cache : IconHashCache) (now : Int) (u h : String) :
    ((iconNotModified cache now u h).1 = true ↔
      ∃ ih, cache.m u = some ih ∧ ¬ ih.expireTime < now ∧
        ih.iconHash ≠ "" ∧ ih.iconHash = stripEtag h)
    ∧ ((cache.m u = none ∨ ∃ ih, cache.m u = some ih ∧ ih.expireTime < now) →
      (iconNotModified cache now u h).1 = false) := by
  have habsent : ∀ cache' : IconHashCache,
      (decide (stripEtag h ≠ "") && (("" : String) == stripEtag h)) = false := by
    intro _
    by_cases hinm : stripEtag h = ""
    · simp [hinm]
    · simp [beq_iff_eq, Ne.symm hinm]
  rcases hm : cache.m u with _ | ih
  · have hget : cache.get now u = ("", cache) :=
      IconHashCache.get_of_none cache now u hm
    constructor
    · simp only [iconNotModified, hget]
      constructor
      · intro htrue
        rw [habsent cache] at htrue
        cases htrue
      · rintro ⟨ih, hih, -, -, -⟩
        cases hih
    · intro _
      simp only [iconNotModified, hget]
      exact habsent cache
  · by_cases hexp : ih.expireTime < now
    · have hget : cache.get now u = ("", { cache with
          m := fun k => if k = u then none else cache.m k }) :=
        IconHashCache.get_of_expired cache now u ih hm hexp
      constructor
      · simp only [iconNotModified, hget]
        constructor
        · intro htrue
          rw [habsent cache] at htrue
          cases htrue
        · rintro ⟨ih', hih', hexp', -, -⟩
          injection hih' with hih'
          exact absurd (hih' ▸ hexp) hexp'
      · intro _
        simp only [iconNotModified, hget]
        exact habsent cache
    · have hget : cache.get now u = (ih.iconHash, cache) :=
        IconHashCache.get_of_live cache now u ih hm hexp
      constructor
      · simp only [iconNotModified, hget]
        constructor
        · intro htrue
          rw [Bool.and_eq_true] at htrue
          have h1 := of_decide_eq_true htrue.1
          have h2 := eq_of_beq htrue.2
          exact ⟨ih, rfl, hexp, by rw [h2]; exact h1, h2⟩
        · rintro ⟨ih', hih', -, hne', heq'⟩
          injection hih' with hih'
          subst hih'
          rw [Bool.and_eq_true]
          refine ⟨decide_eq_true ?_, beq_iff_eq.mpr heq'⟩
          rw [← heq']
          exact hne'
      · intro hcase
        rcases hcase with hnone | ⟨ih', hih', hexp'⟩
        · cases hnone
        · injection hih' with hih'
          exact absurd (hih' ▸ hexp') hexp

theorem icon_not_modified_iff_witness :
    (iconNotModified exIconCache 50 "alice" "\"abc\"").1 = true
    ∧ (iconNotModified exIconCache 150 "alice" "\"abc\"").1 = false :=
  ⟨(icon_not_modified_iff exIconCache 50 "alice" "\"abc\"").1.mpr
      ⟨⟨"abc", 100⟩, by decide, by decide, by decide, by decide⟩,
    (icon_not_modified_iff exIconCache 150 "alice" "\"abc\"").2
      (Or.inr ⟨⟨"abc", 100⟩, by decide, by decide⟩)⟩
